import Mathlib

/-!
Shallow embedding of the chomp incremental parser-combinator engine and proofs
about its combinators, buffers and slice stream.

The cursor (`Input`) is the end-of-input flag together with the list of
remaining items; a `Marker` is a plain copy of the position (the remaining
suffix), as in `primitives::input`.  `State` is the three-way outcome of
`primitives::State` in its `into_inner` view, each variant carrying the
remaining input.  The bounded-repetition combinators are embedded per
`BoundedRange` impl from `src/combinators/bounded.rs`; the buffers from
`src/buffer/buffer.rs`; the slice stream from `src/buffer/slice.rs`.
-/

namespace Chomp

variable {α : Type} {U : Type} {E : Type} {T : Type} {V : Type}

/-- A cursor over the remaining input: the `END_OF_INPUT` flag and the items
remaining from the current position (`primitives::input::new_buf(flags, slice)`). -/
structure Input (α : Type) where
  isEnd : Bool
  buf : List α
deriving Repr, DecidableEq

/-- A `Marker` is a plain copy of the cursor position: the remaining suffix. -/
abbrev Marker (α : Type) := List α

/-- `Input::mark`. -/
def Input.mark (i : Input α) : Marker α := i.buf

/-- `Input::restore`: reset the position to the marker, keeping the flag. -/
def Input.restore (i : Input α) (m : Marker α) : Input α := { i with buf := m }

/-- `primitives::State`, the three-way parse outcome.  Every variant carries
the remaining input, as in the tests of `src/combinators` where
`into_inner()` yields `State::Data(remainder, value)`,
`State::Error(remainder, error)` or `State::Incomplete(remainder, count)`. -/
inductive State (α U E : Type) where
  | data : Input α → U → State α U E
  | error : Input α → E → State α U E
  | incomplete : Input α → Nat → State α U E
deriving Repr, DecidableEq

/-- The remaining-input component of an outcome. -/
def State.input : State α U E → Input α
  | .data b _ => b
  | .error b _ => b
  | .incomplete b _ => b

/-- What an outcome reports to the caller: a value, an error, or a request
for more items. -/
inductive Report (U E : Type) where
  | val : U → Report U E
  | err : E → Report U E
  | more : Nat → Report U E
deriving Repr, DecidableEq

/-- The reported part of an outcome, with the input component erased. -/
def State.report : State α U E → Report U E
  | .data _ v => .val v
  | .error _ e => .err e
  | .incomplete _ n => .more n

/-- A parser in the streaming three-state formulation. -/
abbrev Parser (α U E : Type) := Input α → State α U E

/-- The recoverable error type of the leaf parsers (`Error::expected`). -/
inductive PError (α : Type) where
  | expected : α → PError α
  | unexpected : PError α
deriving Repr, DecidableEq

/-- Modelled from the spec: the leaf element parser `token` (the spec's
`match(c)`) from `src/parsers.rs`, which is not among the provided sources.
Its contract is fixed by the spec scenarios and by the test expectations in
`src/combinators/mod.rs` and `src/combinators/bounded.rs`: on an empty buffer
it is Incomplete requesting one more item; when the first item equals `t` it
consumes it and yields it; otherwise it is an Error at the current position,
consuming nothing. -/
def token [DecidableEq α] (t : α) : Parser α α (PError α) := fun i =>
  match i.buf with
  | [] => .incomplete i 1
  | c :: rest => if c = t then .data ⟨i.isEnd, rest⟩ c else .error i (.expected t)

/-- `combinators::or` (src/combinators/mod.rs, lines 96-114). -/
def or (f g : Parser α T E) (i : Input α) : State α T E :=
  let m := i.mark
  match f i with
  | .data b d => .data b d
  | .error b _ => g (b.restore m)
  | .incomplete b n =>
    let b2 := b.restore m
    if b2.isEnd then g b2 else .incomplete b2 n

/-- `combinators::look_ahead` (src/combinators/mod.rs, lines 329-338). -/
def look_ahead (f : Parser α T E) (i : Input α) : State α T E :=
  let m := i.mark
  match f i with
  | .data b t => .data (b.restore m) t
  | .error b e => .error (b.restore m) e
  | .incomplete b n => .incomplete (b.restore m) n

/-- Fatal (non-recoverable) conditions: a failed `assert!` or an
`unimplemented!()` body.  Both abort the process rather than return a
recoverable parse result; the embedding returns them through `Except`. -/
inductive Fatal where
  | assertFailed : Fatal
  | unimplemented : Fatal
deriving Repr, DecidableEq

/-- End state of a bounded-repetition iteration run: the error variant stores
the pre-attempt marker together with the error value, the incomplete variant
the requested count.  From the `EndState` enum of the `run_iter!` driver. -/
inductive EndState (α E : Type) where
  | error : Marker α → E → EndState α E
  | incomplete : Nat → EndState α E
deriving Repr

/-- Modelled from the spec: the `run_iter!` iteration driver lives in
`src/combinators/macros.rs`, which is not among the provided sources; the
iteration law is spec §4.4: take a Mark, run the element parser; on Data run
the counter update of the corresponding `BoundedRange` impl and continue on
the remainder; on Error or Incomplete stop, leaving the iteration input at the
outcome's remainder and recording the end state (the pre-attempt Mark with the
error, or the requested count).  This instance carries the
`(remaining-min, remaining-max)` counter pair of
`impl BoundedRange for Range<usize>` (src/combinators/bounded.rs, lines
105-155): the `pre` block stops when remaining-max is 0 (the end state is then
the driver's initial, never-overwritten `EndState::Incomplete(1)`), and the
`on` block floors remaining-min at 0 and decrements remaining-max.  Returns
the final input, final counters, accumulated values and end state. -/
def manyRangeLoop (f : Parser α U E) :
    Nat → Nat → Input α → List U → Input α × (Nat × Nat) × List U × EndState α E
  | mn, 0, i, acc => (i, (mn, 0), acc, .incomplete 1)
  | mn, mx + 1, i, acc =>
    let m := i.mark
    match f i with
    | .data b v => manyRangeLoop f (mn - 1) mx b (acc ++ [v])
    | .error b e => (b, (mn, mx + 1), acc, .error m e)
    | .incomplete b n => (b, (mn, mx + 1), acc, .incomplete n)

/-- The final match of `impl BoundedRange for Range<usize>::parse_many`
(src/combinators/bounded.rs, lines 135-153), in source arm order. -/
def rangeFinish : Input α × (Nat × Nat) × List U × EndState α E → State α (List U) E
  | (s, (0, 0), acc, _) => .data s acc
  | (s, (0, _), acc, .error m _) => .data (s.restore m) acc
  | (s, (0, _), acc, .incomplete n) => if s.isEnd then .data s acc else .incomplete s n
  | (s, (_, _), _, .error _ e) => .error s e
  | (s, (_, _), _, .incomplete n) => .incomplete s n

/-- The iteration of `Range<usize>::parse_many` from a given counter state and
accumulator: run the loop, then apply the final match. -/
def RangeUsize.run (f : Parser α U E) (mn mx : Nat) (i : Input α) (acc : List U) :
    State α (List U) E :=
  rangeFinish (manyRangeLoop f mn mx i acc)

/-- `impl BoundedRange for Range<usize>::parse_many` (src/combinators/bounded.rs,
lines 105-155): asserts `start <= end` (the panic is `Fatal.assertFailed`),
then iterates with counter state `(start, max(end, 1) - 1)`. -/
def RangeUsize.parse_many (start stop : Nat) (f : Parser α U E) (i : Input α) :
    Except Fatal (State α (List U) E) :=
  if start ≤ stop then .ok (RangeUsize.run f start (max stop 1 - 1) i [])
  else .error .assertFailed

/-- Modelled from the spec (`run_iter!` driver as for `manyRangeLoop`): the
iteration of `impl BoundedRange for usize` (src/combinators/bounded.rs, lines
593-629) with its single exact-count counter: the `pre` block stops at 0, the
`on` block decrements. -/
def manyExactLoop (f : Parser α U E) :
    Nat → Input α → List U → Input α × Nat × List U × EndState α E
  | 0, i, acc => (i, 0, acc, .incomplete 1)
  | n + 1, i, acc =>
    let m := i.mark
    match f i with
    | .data b v => manyExactLoop f n b (acc ++ [v])
    | .error b e => (b, n + 1, acc, .error m e)
    | .incomplete b k => (b, n + 1, acc, .incomplete k)

/-- The final match of `impl BoundedRange for usize::parse_many`
(src/combinators/bounded.rs, lines 619-627), in source arm order. -/
def exactFinish : Input α × Nat × List U × EndState α E → State α (List U) E
  | (s, 0, acc, _) => .data s acc
  | (s, _, _, .error _ e) => .error s e
  | (s, _, _, .incomplete n) => .incomplete s n

/-- The iteration of `usize::parse_many` from a given counter state and
accumulator. -/
def ExactUsize.run (f : Parser α U E) (n : Nat) (i : Input α) (acc : List U) :
    State α (List U) E :=
  exactFinish (manyExactLoop f n i acc)

/-- `impl BoundedRange for usize::parse_many`: exactly `n` iterations. -/
def ExactUsize.parse_many (n : Nat) (f : Parser α U E) (i : Input α) :
    State α (List U) E :=
  ExactUsize.run f n i []

/-- Modelled from the spec (`run_iter!` driver as above): the iteration of
`impl BoundedRange for RangeFrom<usize>` (src/combinators/bounded.rs, lines
258-295) with its at-least counter, floored at 0.  The shape has no upper
bound, so the recursion carries fuel; `none` means the fuel ran out (the
source loops on). -/
def manyFromLoop (f : Parser α U E) :
    Nat → Nat → Input α → List U → Option (Input α × Nat × List U × EndState α E)
  | 0, _, _, _ => none
  | fuel + 1, mn, i, acc =>
    let m := i.mark
    match f i with
    | .data b v => manyFromLoop f fuel (mn - 1) b (acc ++ [v])
    | .error b e => some (b, mn, acc, .error m e)
    | .incomplete b n => some (b, mn, acc, .incomplete n)

/-- The final match of `impl BoundedRange for RangeFrom<usize>::parse_many`
(src/combinators/bounded.rs, lines 280-293), in source arm order. -/
def fromFinish : Input α × Nat × List U × EndState α E → State α (List U) E
  | (s, 0, acc, .error m _) => .data (s.restore m) acc
  | (s, 0, acc, .incomplete n) => if s.isEnd then .data s acc else .incomplete s n
  | (s, _, _, .error _ e) => .error s e
  | (s, _, _, .incomplete n) => .incomplete s n

/-- `impl BoundedRange for RangeFrom<usize>::parse_many`, fueled. -/
def RangeFrom.parse_many (fuel start : Nat) (f : Parser α U E) (i : Input α) :
    Option (State α (List U) E) :=
  (manyFromLoop f fuel start i []).map fromFinish

/-- `combinators::many1` (src/combinators/mod.rs, lines 161-165):
`bounded::many(i, 1.., f)`, fueled. -/
def many1 (fuel : Nat) (f : Parser α U E) (i : Input α) : Option (State α (List U) E) :=
  RangeFrom.parse_many fuel 1 f i

/-- `combinators::skip_many` (src/combinators/mod.rs, lines 255-260): the body
is `unimplemented!()`, which aborts unconditionally. -/
def skip_many (_f : Parser α U E) (_i : Input α) : Except Fatal (State α Unit E) :=
  .error .unimplemented

/-- `combinators::skip_many1` (src/combinators/mod.rs, lines 281-286): the body
is `unimplemented!()`, which aborts unconditionally. -/
def skip_many1 (_f : Parser α U E) (_i : Input α) : Except Fatal (State α Unit E) :=
  .error .unimplemented

/-- Modelled from the spec: the intended skip iteration for the at-least
(`RangeFrom`) bound shape per §4.4 with values discarded, matching the
commented-out `impl BoundedRange for RangeFrom<usize>::skip_many`
(src/combinators/bounded.rs, lines 300-329): on Data continue on the remainder,
flooring the minimum at 0; on Error stop successfully at the pre-attempt input
if the minimum is met, else propagate the error at the failing position; on
Incomplete stop successfully if the minimum is met and the end flag is set,
else propagate from the pre-attempt input.  Fueled (no upper bound). -/
def skipFromLoop (f : Parser α U E) : Nat → Nat → Input α → Option (State α Unit E)
  | 0, _, _ => none
  | fuel + 1, mn, i =>
    match f i with
    | .data b _ => skipFromLoop f fuel (mn - 1) b
    | .error b e => if mn = 0 then some (.data i ()) else some (.error ⟨i.isEnd, b.buf⟩ e)
    | .incomplete _ n =>
      if mn = 0 && i.isEnd then some (.data i ()) else some (.incomplete i n)

/-- Modelled from the spec: the intended `skip_many1`
(`bounded::skip_many(i, 1.., f)` per the commented call in
src/combinators/mod.rs, line 284), fueled. -/
def skipMany1Spec (fuel : Nat) (f : Parser α U E) (i : Input α) :
    Option (State α Unit E) :=
  skipFromLoop f fuel 1 i

/-- An observed call on a buffer: `fill` with the count the data source
reported written, `consume`, or `request_space`. -/
inductive BufOp where
  | fill : Nat → BufOp
  | consume : Nat → BufOp
  | request_space : Nat → BufOp
deriving Repr, DecidableEq

/-- `buffer::FixedSizeBuffer` (src/buffer/buffer.rs, lines 62-71): the backing
vector's length (`cap`), the populated length and the consumed offset.  The
item contents do not affect the claimed invariants and are elided. -/
structure FixedSizeBuffer where
  cap : Nat
  populated : Nat
  used : Nat
deriving Repr, DecidableEq

/-- `FixedSizeBuffer::with_size` (lines 82-101); the source asserts `0 < size`. -/
def FixedSizeBuffer.with_size (size : Nat) : FixedSizeBuffer := ⟨size, 0, 0⟩

/-- `FixedSizeBuffer::fill` (lines 122-130) after the data source reported `n`
items written into the free tail `[populated, cap)`. -/
def FixedSizeBuffer.fill (b : FixedSizeBuffer) (n : Nat) : FixedSizeBuffer :=
  { b with populated := b.populated + n }

/-- `FixedSizeBuffer::request_space` (lines 133-147): compact `[used, populated)`
to offset 0 only when the free tail is smaller than the request. -/
def FixedSizeBuffer.request_space (b : FixedSizeBuffer) (items : Nat) : FixedSizeBuffer :=
  if b.cap - b.populated < items then
    { b with populated := b.populated - b.used, used := 0 }
  else b

/-- `FixedSizeBuffer::consume` (lines 150-154). -/
def FixedSizeBuffer.consume (b : FixedSizeBuffer) (items : Nat) : FixedSizeBuffer :=
  { b with used := b.used + items }

/-- `FixedSizeBuffer::len` (lines 157-159). -/
def FixedSizeBuffer.len (b : FixedSizeBuffer) : Nat := b.populated - b.used

def FixedSizeBuffer.applyOp (b : FixedSizeBuffer) : BufOp → FixedSizeBuffer
  | .fill n => b.fill n
  | .consume n => b.consume n
  | .request_space n => b.request_space n

/-- The side conditions of the buffer contract: the data source never reports
writing more than the free region it was given, and `consume` stays within
`len()`. -/
def FixedSizeBuffer.validOp (b : FixedSizeBuffer) : BufOp → Bool
  | .fill n => decide (n ≤ b.cap - b.populated)
  | .consume n => decide (b.used + n ≤ b.populated)
  | .request_space _ => true

def FixedSizeBuffer.runOps (b : FixedSizeBuffer) : List BufOp → FixedSizeBuffer
  | [] => b
  | op :: rest => FixedSizeBuffer.runOps (b.applyOp op) rest

def FixedSizeBuffer.validOps (b : FixedSizeBuffer) : List BufOp → Bool
  | [] => true
  | op :: rest => b.validOp op && FixedSizeBuffer.validOps (b.applyOp op) rest

/-- The buffer invariant `used <= populated <= capacity`. -/
def FixedSizeBuffer.Inv (b : FixedSizeBuffer) : Prop :=
  b.used ≤ b.populated ∧ b.populated ≤ b.cap

/-- `buffer::GrowingBuffer` (src/buffer/buffer.rs, lines 174-185): as
`FixedSizeBuffer` plus the optional limit (0 means unlimited). -/
structure GrowingBuffer where
  cap : Nat
  populated : Nat
  limit : Nat
  used : Nat
deriving Repr, DecidableEq

/-- `GrowingBuffer::with_limit` (lines 201-208): empty backing vector. -/
def GrowingBuffer.with_limit (limit : Nat) : GrowingBuffer := ⟨0, 0, limit, 0⟩

/-- `GrowingBuffer::len`. -/
def GrowingBuffer.len (b : GrowingBuffer) : Nat := b.populated - b.used

/-- `GrowingBuffer::fill` (lines 229-237). -/
def GrowingBuffer.fill (b : GrowingBuffer) (n : Nat) : GrowingBuffer :=
  { b with populated := b.populated + n }

/-- `GrowingBuffer::request_space` (lines 240-271).  If a nonzero limit is
already exceeded by the capacity, refuse.  Otherwise reserve when the request
plus the unconsumed length exceeds the capacity — `Vec::reserve(items)`
guarantees capacity at least `len + items` and the `set_len` calls keep the
vector's length equal to its capacity, so the model takes exactly that lower
bound — and then compact only if the free tail is still smaller than the
request. -/
def GrowingBuffer.request_space (b : GrowingBuffer) (items : Nat) : GrowingBuffer :=
  if b.limit ≠ 0 ∧ b.limit < b.cap then b
  else
    let cap1 := if b.cap < items + b.len then b.cap + items else b.cap
    if cap1 - b.populated < items then
      { b with cap := cap1, populated := b.populated - b.used, used := 0 }
    else { b with cap := cap1 }

/-- `GrowingBuffer::consume` (lines 274-278). -/
def GrowingBuffer.consume (b : GrowingBuffer) (items : Nat) : GrowingBuffer :=
  { b with used := b.used + items }

def GrowingBuffer.applyOp (b : GrowingBuffer) : BufOp → GrowingBuffer
  | .fill n => b.fill n
  | .consume n => b.consume n
  | .request_space n => b.request_space n

def GrowingBuffer.validOp (b : GrowingBuffer) : BufOp → Bool
  | .fill n => decide (n ≤ b.cap - b.populated)
  | .consume n => decide (b.used + n ≤ b.populated)
  | .request_space _ => true

def GrowingBuffer.runOps (b : GrowingBuffer) : List BufOp → GrowingBuffer
  | [] => b
  | op :: rest => GrowingBuffer.runOps (b.applyOp op) rest

def GrowingBuffer.validOps (b : GrowingBuffer) : List BufOp → Bool
  | [] => true
  | op :: rest => b.validOp op && GrowingBuffer.validOps (b.applyOp op) rest

/-- The buffer invariant `used <= populated <= capacity`. -/
def GrowingBuffer.Inv (b : GrowingBuffer) : Prop :=
  b.used ≤ b.populated ∧ b.populated ≤ b.cap

/-- Modelled from the spec: `types::InputBuf` (module `types` is not among the
provided sources), the slice/backtracking formulation's input: a window over a
slice plus the flag recording that some parse step requested more data than
the window holds (`is_incomplete`). -/
structure InputBuf (α : Type) where
  buf : List α
  incomplete : Bool
deriving Repr, DecidableEq

/-- `InputBuf::new`: flag clear. -/
def InputBuf.new (s : List α) : InputBuf α := ⟨s, false⟩

/-- A parser in the slice formulation, in the `into_inner` view of its
`ParseResult`: the remainder and an ok-or-error result. -/
abbrev BufParser (α T E : Type) := InputBuf α → InputBuf α × Except E T

/-- `buffer::StreamError` as used by `SliceStream::parse`. -/
inductive StreamError (α E : Type) where
  | endOfInput : StreamError α E
  | incomplete : Nat → StreamError α E
  | parseError : List α → E → StreamError α E
deriving Repr, DecidableEq

/-- `buffer::slice::SliceStream` (src/buffer/slice.rs, lines 42-45). -/
structure SliceStream (α : Type) where
  pos : Nat
  slice : List α
deriving Repr, DecidableEq

/-- `SliceStream::len` (lines 59-61). -/
def SliceStream.len (s : SliceStream α) : Nat := s.slice.length - s.pos

/-- `SliceStream::is_empty` (lines 65-67). -/
def SliceStream.is_empty (s : SliceStream α) : Bool := s.len == 0

/-- `Stream for SliceStream::parse` (src/buffer/slice.rs, lines 83-116),
returning the updated stream together with the result. -/
def SliceStream.parse (s : SliceStream α) (f : BufParser α T E) :
    SliceStream α × Except (StreamError α E) T :=
  if s.is_empty then (s, .error .endOfInput)
  else
    match f (InputBuf.new (s.slice.drop s.pos)) with
    | (rem, .ok d) => ({ s with pos := s.pos + (s.len - rem.buf.length) }, .ok d)
    | (rem, .error e) =>
      if rem.incomplete then (s, .error (.incomplete (s.len + 1)))
      else
        ({ s with pos := s.pos + (s.len - rem.buf.length) },
         .error (.parseError rem.buf e))

/-- Modelled from the spec: the leaf `take(n)` parser in the slice formulation
(`src/parsers.rs` is not among the provided sources): consume and yield the
first `n` items, or set the incomplete flag and fail when fewer than `n`
items remain. -/
def takeBuf (n : Nat) : BufParser α (List α) Unit := fun i =>
  if n ≤ i.buf.length then (⟨i.buf.drop n, i.incomplete⟩, .ok (i.buf.take n))
  else ({ i with incomplete := true }, .error ())

/-- Claim C6: `look_ahead(f)` leaves the cursor position after the call equal
to the position before the call for every outcome of `f` (Data, Error and
Incomplete), while still reporting `f`'s value, error, or incomplete count. -/
theorem look_ahead_zero_consumption (f : Parser α T E) (i : Input α) :
    ((look_ahead f i).input).buf = i.buf ∧
    (look_ahead f i).report = (f i).report := by
  cases h : f i <;>
    simp [look_ahead, h, Input.restore, Input.mark, State.input, State.report]

/-- Claim C3: `or(i, f, g)` runs `f`; on Data it returns that Data; on Error
it restores the pre-`f` Mark and runs `g` from there; on Incomplete with the
end-of-input flag clear it propagates the Incomplete unresolved, never
consulting `g`; on Incomplete with the end-of-input flag set it runs `g`. -/
theorem or_choice_rule (f g : Parser α T E) (i : Input α) :
    (∀ b d, f i = .data b d → Chomp.or f g i = .data b d) ∧
    (∀ b e, f i = .error b e → Chomp.or f g i = g (b.restore i.mark)) ∧
    (∀ b n, f i = .incomplete b n → b.isEnd = false →
      Chomp.or f g i = .incomplete (b.restore i.mark) n ∧
      ∀ g2 : Parser α T E, Chomp.or f g2 i = Chomp.or f g i) ∧
    (∀ b n, f i = .incomplete b n → b.isEnd = true →
      Chomp.or f g i = g (b.restore i.mark)) := by
  refine ⟨?_, ?_, ?_, ?_⟩
  · intro b d h
    simp [Chomp.or, h]
  · intro b e h
    simp [Chomp.or, h]
  · intro b n h hEnd
    constructor
    · simp [Chomp.or, h, Input.restore, hEnd]
    · intro g2
      simp [Chomp.or, h, Input.restore, hEnd]
  · intro b n h hEnd
    simp [Chomp.or, h, Input.restore, hEnd]

/-- Witness for C3 at concrete inputs, one per case of the choice rule:
`token('a')` against `token('b')` on `"a"` (Data), on `"b"` (Error, `g` runs
from the restored Mark), on empty input with the end flag clear (Incomplete
propagated unresolved) and with the end flag set (`g` runs). -/
theorem or_choice_rule_witness :
    Chomp.or (token 'a') (token 'b') ⟨false, ['a']⟩ = .data ⟨false, []⟩ 'a' ∧
    Chomp.or (token 'a') (token 'b') ⟨false, ['b']⟩ =
      token 'b' (Input.restore ⟨false, ['b']⟩ (Input.mark ⟨false, ['b']⟩)) ∧
    Chomp.or (token 'a') (token 'b') ⟨false, []⟩ =
      .incomplete (Input.restore ⟨false, []⟩ (Input.mark ⟨false, []⟩)) 1 ∧
    Chomp.or (token 'a') (token 'b') ⟨true, []⟩ =
      token 'b' (Input.restore ⟨true, []⟩ (Input.mark ⟨true, []⟩)) := by
  refine ⟨?_, ?_, ?_, ?_⟩
  · exact (or_choice_rule (token 'a') (token 'b') ⟨false, ['a']⟩).1
      ⟨false, []⟩ 'a' (by decide)
  · exact (or_choice_rule (token 'a') (token 'b') ⟨false, ['b']⟩).2.1
      ⟨false, ['b']⟩ (.expected 'a') (by decide)
  · exact ((or_choice_rule (token 'a') (token 'b') ⟨false, []⟩).2.2.1
      ⟨false, []⟩ 1 (by decide) (by decide)).1
  · exact (or_choice_rule (token 'a') (token 'b') ⟨true, []⟩).2.2.2
      ⟨true, []⟩ 1 (by decide) (by decide)

/-- Claim C1: once remaining-max reaches 0, bounded `many` stops immediately
without attempting a further element (the loop's result does not depend on the
element parser and consumes nothing), and with the minimum also met it stops
as success; in particular `many(2..4, token('a'))` on `"aaaab"` with the
end-of-input flag clear yields Data with value `['a','a','a']` and remainder
`"ab"`. -/
theorem many_range_max_stop :
    (∀ (α U E : Type) (f g : Parser α U E) (mn : Nat) (i : Input α) (acc : List U),
      manyRangeLoop f mn 0 i acc = manyRangeLoop g mn 0 i acc ∧
      (manyRangeLoop f mn 0 i acc).1 = i) ∧
    (∀ (α U E : Type) (f : Parser α U E) (i : Input α) (acc : List U),
      RangeUsize.run f 0 0 i acc = .data i acc) ∧
    RangeUsize.parse_many 2 4 (token 'a') ⟨false, ['a', 'a', 'a', 'a', 'b']⟩ =
      .ok (.data ⟨false, ['a', 'b']⟩ ['a', 'a', 'a']) := by
  refine ⟨?_, ?_, rfl⟩
  · intro α U E f g mn i acc
    exact ⟨rfl, rfl⟩
  · intro α U E f i acc
    rfl

/-- Claim C2: when an element attempt errors before the minimum repetition
count is met, bounded `many` propagates the Error as-is, position at the
failing attempt, without undoing prior successful iterations; with the
minimum already met, an element Error instead restores the pre-attempt Mark
and yields the accumulated sequence as Data.  Scenario E:
`many(exact 2, token('a'))` on `"ab"` errors with remainder `"b"`. -/
theorem many_min_unmet_error_propagates :
    (∀ (α U E : Type) (f : Parser α U E) (n : Nat) (i b : Input α) (e : E) (acc : List U),
      0 < n → f i = .error b e → ExactUsize.run f n i acc = .error b e) ∧
    (∀ (α U E : Type) (f : Parser α U E) (mn mx : Nat) (i b : Input α) (e : E) (acc : List U),
      f i = .error b e →
      RangeUsize.run f (mn + 1) (mx + 1) i acc = .error b e) ∧
    (∀ (α U E : Type) (f : Parser α U E) (mx : Nat) (i b : Input α) (e : E) (acc : List U),
      f i = .error b e →
      RangeUsize.run f 0 (mx + 1) i acc = .data (b.restore i.mark) acc) ∧
    ExactUsize.parse_many 2 (token 'a') ⟨false, ['a', 'b']⟩ =
      .error ⟨false, ['b']⟩ (.expected 'a') := by
  refine ⟨?_, ?_, ?_, rfl⟩
  · intro α U E f n i b e acc hn hf
    cases n with
    | zero => exact absurd hn (lt_irrefl 0)
    | succ n => simp [ExactUsize.run, manyExactLoop, hf, exactFinish]
  · intro α U E f mn mx i b e acc hf
    simp [RangeUsize.run, manyRangeLoop, hf, rangeFinish]
  · intro α U E f mx i b e acc hf
    simp [RangeUsize.run, manyRangeLoop, hf, rangeFinish]

/-- Witness for C2 at concrete inputs: the exact-2 case mid-run with one item
already accumulated and a failing `token('a')` on `"b"`, and the min-met
range case restoring the pre-attempt Mark. -/
theorem many_min_unmet_error_propagates_witness :
    (0 < 1 ∧
      ExactUsize.run (token 'a') 1 ⟨false, ['b']⟩ ['a'] =
        .error ⟨false, ['b']⟩ (.expected 'a')) ∧
    RangeUsize.run (token 'a') 1 1 ⟨false, ['b']⟩ ['a'] =
      .error ⟨false, ['b']⟩ (.expected 'a') ∧
    RangeUsize.run (token 'a') 0 1 ⟨false, ['b']⟩ ['a'] =
      .data ⟨false, ['b']⟩ ['a'] := by
  refine ⟨?_, ?_, ?_⟩
  · exact ⟨by decide,
      many_min_unmet_error_propagates.1 Char Char (PError Char) (token 'a') 1
        ⟨false, ['b']⟩ ⟨false, ['b']⟩ (.expected 'a') ['a'] (by decide) (by decide)⟩
  · exact many_min_unmet_error_propagates.2.1 Char Char (PError Char) (token 'a') 0 0
      ⟨false, ['b']⟩ ⟨false, ['b']⟩ (.expected 'a') ['a'] (by decide)
  · have h := many_min_unmet_error_propagates.2.2.1 Char Char (PError Char) (token 'a') 0
      ⟨false, ['b']⟩ ⟨false, ['b']⟩ (.expected 'a') ['a'] (by decide)
    simpa [Input.restore, Input.mark] using h

/-- Claim C8: a bounded-repetition descriptor with min > max (the closed-open
range shape is the only one whose two endpoints are both configurable) makes
the combinator abort via its `assert!(self.start <= self.end)` rather than
return a recoverable parse result, for every input and element parser. -/
theorem range_min_gt_max_panics (start stop : Nat) (f : Parser α U E) (i : Input α)
    (h : stop < start) :
    RangeUsize.parse_many start stop f i = .error .assertFailed := by
  unfold RangeUsize.parse_many
  rw [if_neg (by omega)]

/-- Witness for C8: the range `2..1` aborts on input `"a"`. -/
theorem range_min_gt_max_panics_witness :
    1 < 2 ∧
    RangeUsize.parse_many 2 1 (token 'a') ⟨false, ['a']⟩ = .error .assertFailed :=
  ⟨by decide, range_min_gt_max_panics 2 1 (token 'a') ⟨false, ['a']⟩ (by decide)⟩

/-- Claim C4 (code bug): `skip_many1` in src/combinators/mod.rs is
`unimplemented!()` and aborts unconditionally, while its own tests
(`skip_many1_test`) and doc examples require it to stop at the same point as
`many1` with the same consumption, returning `()`: on `"aabc"` with element
`token('a')` the intended skip loop (modelled from the spec) and `many1` both
stop with remainder `"bc"`. -/
theorem skip_many1_unimplemented_vs_spec :
    skip_many1 (token 'a') ⟨false, ['a', 'a', 'b', 'c']⟩ =
      .error Fatal.unimplemented ∧
    skipMany1Spec 10 (token 'a') ⟨false, ['a', 'a', 'b', 'c']⟩ =
      some (.data ⟨false, ['b', 'c']⟩ ()) ∧
    many1 10 (token 'a') ⟨false, ['a', 'a', 'b', 'c']⟩ =
      some (.data ⟨false, ['b', 'c']⟩ ['a', 'a']) :=
  ⟨rfl, rfl, rfl⟩

/-- One valid call preserves the `FixedSizeBuffer` invariant. -/
theorem fixed_applyOp_inv {b : FixedSizeBuffer} {op : BufOp}
    (hI : b.Inv) (hV : b.validOp op = true) : (b.applyOp op).Inv := by
  obtain ⟨h1, h2⟩ := hI
  cases op with
  | fill n =>
    simp only [FixedSizeBuffer.validOp, decide_eq_true_eq] at hV
    simp only [FixedSizeBuffer.applyOp, FixedSizeBuffer.fill, FixedSizeBuffer.Inv]
    omega
  | consume n =>
    simp only [FixedSizeBuffer.validOp, decide_eq_true_eq] at hV
    simp only [FixedSizeBuffer.applyOp, FixedSizeBuffer.consume, FixedSizeBuffer.Inv]
    omega
  | request_space n =>
    simp only [FixedSizeBuffer.applyOp, FixedSizeBuffer.request_space,
      FixedSizeBuffer.Inv]
    split_ifs <;> constructor <;> (try simp) <;> omega

/-- One valid call preserves the `GrowingBuffer` invariant. -/
theorem growing_applyOp_inv {b : GrowingBuffer} {op : BufOp}
    (hI : b.Inv) (hV : b.validOp op = true) : (b.applyOp op).Inv := by
  obtain ⟨h1, h2⟩ := hI
  cases op with
  | fill n =>
    simp only [GrowingBuffer.validOp, decide_eq_true_eq] at hV
    simp only [GrowingBuffer.applyOp, GrowingBuffer.fill, GrowingBuffer.Inv]
    omega
  | consume n =>
    simp only [GrowingBuffer.validOp, decide_eq_true_eq] at hV
    simp only [GrowingBuffer.applyOp, GrowingBuffer.consume, GrowingBuffer.Inv]
    omega
  | request_space n =>
    simp only [GrowingBuffer.applyOp, GrowingBuffer.request_space, GrowingBuffer.len,
      GrowingBuffer.Inv]
    split_ifs <;> constructor <;> (try simp) <;> omega

/-- Every prefix of a valid call sequence keeps the `FixedSizeBuffer`
invariant. -/
theorem fixed_runOps_take_inv :
    ∀ (ops : List BufOp) (b : FixedSizeBuffer) (k : Nat),
      b.Inv → b.validOps ops = true → (b.runOps (ops.take k)).Inv := by
  intro ops
  induction ops with
  | nil =>
    intro b k hI _
    simpa [FixedSizeBuffer.runOps] using hI
  | cons op rest ih =>
    intro b k hI hV
    simp only [FixedSizeBuffer.validOps, Bool.and_eq_true] at hV
    cases k with
    | zero => simpa [FixedSizeBuffer.runOps] using hI
    | succ k =>
      simp only [List.take_succ_cons, FixedSizeBuffer.runOps]
      exact ih (b.applyOp op) k (fixed_applyOp_inv hI hV.1) hV.2

/-- Every prefix of a valid call sequence keeps the `GrowingBuffer`
invariant. -/
theorem growing_runOps_take_inv :
    ∀ (ops : List BufOp) (b : GrowingBuffer) (k : Nat),
      b.Inv → b.validOps ops = true → (b.runOps (ops.take k)).Inv := by
  intro ops
  induction ops with
  | nil =>
    intro b k hI _
    simpa [GrowingBuffer.runOps] using hI
  | cons op rest ih =>
    intro b k hI hV
    simp only [GrowingBuffer.validOps, Bool.and_eq_true] at hV
    cases k with
    | zero => simpa [GrowingBuffer.runOps] using hI
    | succ k =>
      simp only [List.take_succ_cons, GrowingBuffer.runOps]
      exact ih (b.applyOp op) k (growing_applyOp_inv hI hV.1) hV.2

/-- Claim C5: for every sequence of `fill`/`consume`/`request_space` calls on
a freshly constructed `FixedSizeBuffer` or `GrowingBuffer` — with a data
source that never reports writing more than the free region it was given and
consume amounts within `len()` — the invariant `used <= populated <= capacity`
holds after every call (that is, after every prefix of the sequence). -/
theorem buffer_invariant_all_sequences (size limit : Nat) (ops : List BufOp) (k : Nat) :
    (FixedSizeBuffer.validOps (FixedSizeBuffer.with_size size) ops = true →
      ((FixedSizeBuffer.with_size size).runOps (ops.take k)).Inv) ∧
    (GrowingBuffer.validOps (GrowingBuffer.with_limit limit) ops = true →
      ((GrowingBuffer.with_limit limit).runOps (ops.take k)).Inv) := by
  constructor
  · intro h
    exact fixed_runOps_take_inv ops _ k ⟨Nat.le_refl 0, Nat.zero_le _⟩ h
  · intro h
    exact growing_runOps_take_inv ops _ k ⟨Nat.le_refl 0, Nat.le_refl 0⟩ h

/-- Witness for C5: concrete call sequences, one exercising the fixed buffer's
compaction and one exercising the growing buffer's reallocation and
compaction. -/
theorem buffer_invariant_all_sequences_witness :
    (FixedSizeBuffer.validOps (FixedSizeBuffer.with_size 4)
        [.fill 3, .consume 2, .request_space 2, .fill 1] = true ∧
      ((FixedSizeBuffer.with_size 4).runOps
        ([.fill 3, .consume 2, .request_space 2, .fill 1].take 4)).Inv) ∧
    (GrowingBuffer.validOps (GrowingBuffer.with_limit 5)
        [.request_space 4, .fill 3, .consume 1, .request_space 2, .fill 2] = true ∧
      ((GrowingBuffer.with_limit 5).runOps
        ([.request_space 4, .fill 3, .consume 1, .request_space 2, .fill 2].take 5)).Inv) := by
  constructor
  · exact ⟨by decide,
      (buffer_invariant_all_sequences 4 5
        [.fill 3, .consume 2, .request_space 2, .fill 1] 4).1 (by decide)⟩
  · exact ⟨by decide,
      (buffer_invariant_all_sequences 4 5
        [.request_space 4, .fill 3, .consume 1, .request_space 2, .fill 2] 5).2 (by decide)⟩

/-- Claim C9: for a `GrowingBuffer` with a nonzero limit (satisfying the
buffer invariant): when the capacity already exceeds the limit,
`request_space(n)` changes nothing; otherwise, when the unconsumed length
plus `n` exceeds the capacity, it reserves additional backing capacity; and
the capacity never decreases across any `request_space` call. -/
theorem growing_request_space_nonzero_limit (b : GrowingBuffer) (n : Nat)
    (hL : b.limit ≠ 0) (hI : b.Inv) :
    (b.limit < b.cap → b.request_space n = b) ∧
    (b.cap ≤ b.limit → b.cap < n + b.len → b.cap < (b.request_space n).cap) ∧
    b.cap ≤ (b.request_space n).cap := by
  obtain ⟨h1, h2⟩ := hI
  refine ⟨?_, ?_, ?_⟩
  · intro hlt
    simp [GrowingBuffer.request_space, hL, hlt]
  · intro hle hgrow
    have hguard : ¬(b.limit ≠ 0 ∧ b.limit < b.cap) := by omega
    simp only [GrowingBuffer.request_space, GrowingBuffer.len] at hgrow ⊢
    rw [if_neg hguard, if_pos hgrow]
    split_ifs <;> (try simp) <;> omega
  · by_cases hguard : b.limit ≠ 0 ∧ b.limit < b.cap
    · simp [GrowingBuffer.request_space, hguard]
    · simp only [GrowingBuffer.request_space, GrowingBuffer.len]
      rw [if_neg hguard]
      split_ifs <;> simp

/-- Witness for C9: a buffer already over its limit is left unchanged, and a
buffer under its limit whose unconsumed length plus the request exceeds the
capacity grows. -/
theorem growing_request_space_nonzero_limit_witness :
    (GrowingBuffer.mk 5 3 4 1).request_space 2 = GrowingBuffer.mk 5 3 4 1 ∧
    (GrowingBuffer.mk 5 3 4 1).cap ≤ ((GrowingBuffer.mk 5 3 4 1).request_space 2).cap ∧
    (GrowingBuffer.mk 2 2 4 0).cap < ((GrowingBuffer.mk 2 2 4 0).request_space 3).cap := by
  have hOver := growing_request_space_nonzero_limit ⟨5, 3, 4, 1⟩ 2
    (by decide) ⟨by decide, by decide⟩
  have hGrow := growing_request_space_nonzero_limit ⟨2, 2, 4, 0⟩ 3
    (by decide) ⟨by decide, by decide⟩
  exact ⟨hOver.1 (by decide), hOver.2.2, hGrow.2.1 (by decide) (by decide)⟩

/-- Claim C10: `SliceStream::parse` with zero remaining items returns the
`EndOfInput` stream error; the result does not depend on the parser, which is
never invoked. -/
theorem slice_stream_empty_end_of_input (f : BufParser α T E) (s : SliceStream α)
    (h : s.len = 0) :
    s.parse f = (s, .error .endOfInput) := by
  simp [SliceStream.parse, SliceStream.is_empty, h]

/-- Witness for C10: a stream over `"ab"` already at position 2. -/
theorem slice_stream_empty_end_of_input_witness :
    SliceStream.len ⟨2, ['a', 'b']⟩ = 0 ∧
    SliceStream.parse ⟨2, ['a', 'b']⟩ (takeBuf 1) =
      (⟨2, ['a', 'b']⟩, .error .endOfInput) :=
  ⟨by decide, slice_stream_empty_end_of_input (takeBuf 1) ⟨2, ['a', 'b']⟩ (by decide)⟩

/-- Claim C7 (code bug): on an Incomplete parse attempt, `SliceStream::parse`
returns `StreamError::Incomplete(self.len() + 1)` — the remaining window
length plus one — not the missing-item count: `take(3)` over the 2-item slice
`"ab"` is missing 1 item, yet the stream reports `Incomplete(3)`. -/
theorem slice_stream_incomplete_count_eval :
    SliceStream.parse ⟨0, ['a', 'b']⟩ (takeBuf 3) =
      (⟨0, ['a', 'b']⟩, .error (.incomplete 3)) ∧
    (StreamError.incomplete 3 : StreamError Char Unit) ≠ .incomplete 1 :=
  ⟨rfl, by decide⟩

end Chomp
